import Mathlib

/-!
Shallow embedding of the launcher's update orchestrator and binary domain
patcher.

Sources embedded:
- `src/backend/utils/clientPatcher.js` (class `ClientPatcher` and
  `getTargetDomain`): byte buffers are `List Nat` with each element in
  `0..255` (assignments into a Node `Buffer` truncate modulo 256, which the
  embedding applies at every write).
- `src/unnamed/part_003` (the version manager): `extractVersionNumber`,
  `needsIntermediatePatches`, `canUseDifferentialUpdate`, `validateChecksum`,
  `extractVersionDetails`, `getLatestClientVersion`.
- `src/backend/managers/differentialUpdateManager.js`:
  `acquireGameArchive` and `performIntelligentUpdate`.
- `src/unnamed/part_004` (the config collaborator): `getAuthDomain` /
  `saveVersionClient` semantics; the installed-version record is threaded as
  explicit state.

JavaScript `null`/`undefined` string values are modelled as `Option String`;
JS truthiness of a string (`!s` is `true` exactly for `null`, `undefined`
and the empty string) is `optTruthy`.  File contents are modelled by their
digests where only the checksum matters, and as byte lists where the bytes
matter.  Network and subprocess effects are oracles passed as arguments.
-/

/-- JS truthiness of a nullable string: `null`/`undefined`/`""` are falsy. -/
def optTruthy : Option String → Bool
  | none => false
  | some s => s != ""

/-! ## Byte-buffer primitives (Node `Buffer` operations used by the patcher) -/

/-- Whether `pat` occurs in `buf` starting at `pos` (full match only, as
`Buffer.indexOf` reports). -/
def matchesAt (buf pat : List Nat) (pos : Nat) : Bool :=
  ((buf.drop pos).take pat.length) == pat

/-- Fuelled scan for the first occurrence of `pat` at or after `pos`. -/
def idxOfAux (buf pat : List Nat) : Nat → Nat → Option Nat
  | _, 0 => none
  | pos, fuel + 1 =>
    if pos > buf.length then none
    else if matchesAt buf pat pos then some pos
    else idxOfAux buf pat (pos + 1) fuel

/-- Embedding of `buffer.indexOf(pattern, pos)` (as `Option` instead of -1). -/
def idxOf (buf pat : List Nat) (pos : Nat) : Option Nat :=
  idxOfAux buf pat pos (buf.length + 1 - pos)

/-- Embedding of `buffer.includes(pattern)`. -/
def bufIncludes (buf pat : List Nat) : Bool :=
  (idxOf buf pat 0).isSome

/-- Loop body of `ClientPatcher.findAllOccurrences`: repeatedly `indexOf`
from `pos`, pushing each hit and restarting at `hit + 1`. -/
def findAllOccurrencesAux (buf pat : List Nat) : Nat → Nat → List Nat
  | _, 0 => []
  | pos, fuel + 1 =>
    if pos < buf.length then
      match idxOf buf pat pos with
      | none => []
      | some i => i :: findAllOccurrencesAux buf pat (i + 1) fuel
    else []

/-- Embedding of `ClientPatcher.findAllOccurrences` (clientPatcher.js:118). -/
def findAllOccurrences (buf pat : List Nat) : List Nat :=
  findAllOccurrencesAux buf pat 0 (buf.length + 1)

/-- Embedding of `source.copy(target, pos)`: overwrites `bytes.length` bytes
of `buf` starting at `pos`, truncated at the end of `buf` (a Node `copy`
never grows the target). -/
def writeAt (buf : List Nat) (pos : Nat) (bytes : List Nat) : List Nat :=
  (List.range buf.length).map fun i =>
    if pos ≤ i ∧ i < pos + bytes.length then bytes.getD (i - pos) 0 else buf.getD i 0

/-! ## String encoders (clientPatcher.js:86-113) -/

/-- Payload of the length-prefixed format: each character byte followed by a
`0x00`, except after the last character (clientPatcher.js:94-100). -/
def lpPayload : List Char → List Nat
  | [] => []
  | [c] => [c.toNat % 256]
  | c :: c' :: rest => c.toNat % 256 :: 0 :: lpPayload (c' :: rest)

/-- Embedding of `ClientPatcher.stringToLengthPrefixed` (clientPatcher.js:86).
`result[0] = length` truncates modulo 256 (a `Buffer` element write); the
three following bytes are set to zero.  For the empty string the source
allocates `4 + 0 + (0 - 1) = 3` bytes and the write to index 3 is silently
dropped. -/
def stringToLengthPrefixed (s : String) : List Nat :=
  if s.data.isEmpty then [0, 0, 0]
  else s.data.length % 256 :: 0 :: 0 :: 0 :: lpPayload s.data

/-- UTF-16 code unit of a character as `charCodeAt` returns it (characters
outside the BMP are not exercised by the claims). -/
def jsCharCode (c : Char) : Nat := c.toNat % 65536

/-- Embedding of `ClientPatcher.stringToUtf16LE` (clientPatcher.js:107). -/
def stringToUtf16LE (s : String) : List Nat :=
  s.data.foldr (fun c acc => jsCharCode c % 256 :: jsCharCode c / 256 :: acc) []

/-- Little-endian 32-bit encoding of a natural number, used to state what a
"u32 LE length" prefix ought to look like. -/
def le32 (n : Nat) : List Nat :=
  [n % 256, n / 256 % 256, n / 65536 % 256, n / 16777216 % 256]

/-! ## Version-number extraction (part_003:129-147) -/

/-- Leading decimal digits of a character list. -/
def takeDigits (l : List Char) : List Char := l.takeWhile Char.isDigit

/-- Value of a list of decimal digits. -/
def digitsVal (l : List Char) : Nat :=
  l.foldl (fun a c => a * 10 + (c.toNat - '0'.toNat)) 0

/-- Scan for the regex `/v(\d+)/`: the first `v` that is followed by at
least one digit, capturing the maximal digit run. -/
def vMatchAux : List Char → Option Nat
  | [] => none
  | c :: rest =>
    if c = 'v' ∧ ¬(takeDigits rest).isEmpty then some (digitsVal (takeDigits rest))
    else vMatchAux rest

/-- Scan for the regex `/(\d+)\.pwr/`: the leftmost position whose maximal
digit run is immediately followed by `.pwr` (the greedy `\d+` cannot
backtrack into a successful match because `.pwr` does not start with a
digit). -/
def pwrMatchAux : List Char → Option Nat
  | [] => none
  | c :: rest =>
    if c.isDigit then
      if ((c :: rest).drop (takeDigits (c :: rest)).length).take 4 == ['.', 'p', 'w', 'r'] then
        some (digitsVal (takeDigits (c :: rest)))
      else pwrMatchAux rest
    else pwrMatchAux rest

/-- Hexadecimal digit test for `parseInt`'s `0x` prefix handling. -/
def isHexDigit (c : Char) : Bool :=
  c.isDigit ∨ ('a' ≤ c ∧ c ≤ 'f') ∨ ('A' ≤ c ∧ c ≤ 'F')

/-- Value of a hex digit. -/
def hexDigitVal (c : Char) : Nat :=
  if c.isDigit then c.toNat - '0'.toNat
  else if 'a' ≤ c ∧ c ≤ 'f' then c.toNat - 'a'.toNat + 10
  else c.toNat - 'A'.toNat + 10

/-- Value of a list of hex digits. -/
def hexVal (l : List Char) : Nat := l.foldl (fun a c => a * 16 + hexDigitVal c) 0

/-- JS whitespace skipped by `parseInt`. -/
def skipWs (l : List Char) : List Char :=
  l.dropWhile fun c => c = ' ' ∨ c = '\t' ∨ c = '\n' ∨ c = '\r' ∨ c = '\x0b' ∨ c = '\x0c'

/-- Embedding of `parseInt(s)` (radix unspecified): optional sign, `0x` hex
prefix, maximal digit run; `none` models `NaN`. -/
def parseIntJS (l : List Char) : Option Int :=
  let l1 := skipWs l
  let signed : Int × List Char :=
    match l1 with
    | '-' :: r => (-1, r)
    | '+' :: r => (1, r)
    | _ => (1, l1)
  match signed.2 with
  | '0' :: x :: r =>
    if x = 'x' ∨ x = 'X' then
      let hs := r.takeWhile isHexDigit
      if hs.isEmpty then none else some (signed.1 * (hexVal hs : Int))
    else some (signed.1 * (digitsVal (takeDigits signed.2) : Int))
  | _ =>
    let ds := takeDigits signed.2
    if ds.isEmpty then none else some (signed.1 * (digitsVal ds : Int))

/-- Embedding of `extractVersionNumber` (part_003:129): try `/v(\d+)/`, then
`/(\d+)\.pwr/`, then `parseInt` with `NaN ↦ 0`; `null`/`""` give 0. -/
def extractVersionNumber (v : Option String) : Int :=
  match v with
  | none => 0
  | some s =>
    if s = "" then 0
    else
      match vMatchAux s.data with
      | some n => (n : Int)
      | none =>
        match pwrMatchAux s.data with
        | some n => (n : Int)
        | none => (parseIntJS s.data).getD 0

/-! ## Version manager (part_003) -/

/-- Version string for build `i` as the source formats it: `` `${i}.pwr` ``. -/
def pwrName (i : Int) : String := toString i ++ ".pwr"

/-- Embedding of `buildArchiveUrl` (part_003:149). -/
def buildArchiveUrl (buildNumber : Int) (branch osName arch : String) : String :=
  "https://game.authbp.xyz/dl/" ++ osName ++ "/" ++ arch ++ "/" ++ branch ++ "/0/"
    ++ toString buildNumber ++ ".pwr"

/-- Record returned by `extractVersionDetails` (part_003:205-215). -/
structure VersionDetails where
  version : String
  buildNumber : Int
  buildName : String
  fullUrl : String
  differentialUrl : Option String
  checksum : Option String
  sourceVersion : Option String
  isDifferential : Bool
deriving DecidableEq, Repr

/-- Embedding of `extractVersionDetails` (part_003:194): in the current
source the differential URL and checksum are always `null` and
`isDifferential` is always `false`. -/
def extractVersionDetails (targetVersion branch osName arch : String) : VersionDetails :=
  let buildNumber := extractVersionNumber (some targetVersion)
  let previousBuild := buildNumber - 1
  { version := targetVersion
    buildNumber := buildNumber
    buildName := "HYTALE-Build-" ++ toString buildNumber
    fullUrl := buildArchiveUrl buildNumber branch osName arch
    differentialUrl := none
    checksum := none
    sourceVersion := if previousBuild > 0 then some (pwrName previousBuild) else none
    isDifferential := false }

/-- Embedding of `canUseDifferentialUpdate` (part_003:218): the guards run
in the source's order and the version comparison is on extracted build
numbers. -/
def canUseDifferentialUpdate (currentVersion : Option String) (d : VersionDetails) : Bool :=
  if ¬optTruthy d.differentialUrl then false
  else if ¬d.isDifferential then false
  else if ¬optTruthy currentVersion then false
  else extractVersionNumber currentVersion == extractVersionNumber d.sourceVersion

/-- Embedding of `needsIntermediatePatches` (part_003:231): empty for a
falsy current version, otherwise every `` `${i}.pwr` `` for
`i = current+1 .. target`. -/
def needsIntermediatePatches (currentVersion : Option String) (targetVersion : String) :
    List String :=
  if ¬optTruthy currentVersion then []
  else
    let current := extractVersionNumber currentVersion
    let target := extractVersionNumber (some targetVersion)
    (List.range (target - current).toNat).map fun k => pwrName (current + 1 + Int.ofNat k)

/-- Embedding of `validateChecksum` (part_003:256): a falsy expected
checksum short-circuits to `true` before any digest is computed, so the
result is independent of the file's digest (passed here as `digest`). -/
def validateChecksum (digest : String) (expectedChecksum : Option String) : Bool :=
  if ¬optTruthy expectedChecksum then true
  else digest == expectedChecksum.getD ""

/-! ## Binary domain patcher (clientPatcher.js) -/

/-- The domain baked into the vendor binary (clientPatcher.js:6). -/
def ORIGINAL_DOMAIN : String := "hytale.com"

/-- The built-in default target domain (clientPatcher.js:26). -/
def DEFAULT_NEW_DOMAIN : String := "auth.sanasol.ws"

/-- Embedding of `getTargetDomain` (clientPatcher.js:14): the environment
override wins when truthy; otherwise the config collaborator's
`getAuthDomain` result is used, and if that call throws the built-in
default is substituted. -/
def getTargetDomain (envDomain : Option String) (cfgDomain : Except Unit String) : String :=
  if optTruthy envDomain then envDomain.getD ""
  else
    match cfgDomain with
    | .ok d => d
    | .error _ => DEFAULT_NEW_DOMAIN

/-- Embedding of `ClientPatcher.getNewDomain` (clientPatcher.js:45), as a
function of the configured domain it validates: out-of-range lengths are
replaced by the built-in default. -/
def getNewDomain (domain : String) : String :=
  if domain.length < 4 then DEFAULT_NEW_DOMAIN
  else if domain.length > 16 then DEFAULT_NEW_DOMAIN
  else domain

/-- Result of `ClientPatcher.getDomainStrategy` (clientPatcher.js:63). -/
structure DomainStrategy where
  mode : String
  mainDomain : String
  subdomainPrefix : String
  description : String
deriving DecidableEq, Repr

/-- Embedding of `ClientPatcher.getDomainStrategy` (clientPatcher.js:63). -/
def getDomainStrategy (domain : String) : DomainStrategy :=
  if domain.length ≤ 10 then
    { mode := "direct"
      mainDomain := domain
      subdomainPrefix := ""
      description := "Direct replacement: hytale.com -> " ++ domain }
  else
    { mode := "split"
      mainDomain := ⟨domain.data.drop 6⟩
      subdomainPrefix := ⟨domain.data.take 6⟩
      description := "Split mode: subdomain prefix=\"" ++ (⟨domain.data.take 6⟩ : String)
        ++ "\", main domain=\"" ++ (⟨domain.data.drop 6⟩ : String) ++ "\"" }

/-- Embedding of `ClientPatcher.replaceBytes` (clientPatcher.js:133): a new
pattern longer than the old one is skipped with count 0; otherwise every
occurrence position (computed up front) is overwritten in order. -/
def replaceBytes (buffer oldBytes newBytes : List Nat) : List Nat × Nat :=
  if newBytes.length > oldBytes.length then (buffer, 0)
  else
    (findAllOccurrences buffer oldBytes).foldl
      (fun acc pos => (writeAt acc.1 pos newBytes, acc.2 + 1)) (buffer, 0)

/-- Embedding of `ClientPatcher.findAndReplaceDomainSmart`
(clientPatcher.js:154): occurrences of the UTF-16LE encoding of the domain
minus its last character are found up front; each is patched when the byte
at the last-character position (read from the buffer as mutated so far)
matches the old domain's last char code, and the new last char code is
written truncated modulo 256. -/
def findAndReplaceDomainSmart (data : List Nat) (oldDomain newDomain : String) :
    List Nat × Nat :=
  let oldUtf16NoLast := stringToUtf16LE ⟨oldDomain.data.dropLast⟩
  let newUtf16NoLast := stringToUtf16LE ⟨newDomain.data.dropLast⟩
  let oldLast : Option Nat := oldDomain.data.getLast?.map jsCharCode
  let newLast : Option Nat := newDomain.data.getLast?.map jsCharCode
  (findAllOccurrences data oldUtf16NoLast).foldl
    (fun acc pos =>
      let lastCharPos := pos + oldUtf16NoLast.length
      if lastCharPos + 1 > data.length then acc
      else if some (acc.1.getD lastCharPos 0) == oldLast then
        ((writeAt acc.1 pos newUtf16NoLast).set lastCharPos (newLast.getD 0 % 256), acc.2 + 1)
      else acc)
    (data, 0)

/-- Embedding of `ClientPatcher.applyDomainPatches` (clientPatcher.js:194):
sentry URL, then the main domain, then the four subdomain labels, all in
length-prefixed form.  Counts of zero contribute zero to the total, so the
running total is a plain sum. -/
def applyDomainPatches (data : List Nat) (domain : String) (protocol : String) :
    List Nat × Nat :=
  let strategy := getDomainStrategy domain
  let oldSentry := "https://ca900df42fcf57d4dd8401a86ddd7da2@sentry.hytale.com/2"
  let newSentry := protocol ++ "t@" ++ domain ++ "/2"
  let r1 := replaceBytes data (stringToLengthPrefixed oldSentry) (stringToLengthPrefixed newSentry)
  let r2 := replaceBytes r1.1 (stringToLengthPrefixed ORIGINAL_DOMAIN)
    (stringToLengthPrefixed strategy.mainDomain)
  let subdomains := ["https://tools.", "https://sessions.", "https://account-data.",
    "https://telemetry."]
  subdomains.foldl
    (fun acc sub =>
      let r := replaceBytes acc.1 (stringToLengthPrefixed sub)
        (stringToLengthPrefixed (protocol ++ strategy.subdomainPrefix))
      (r.1, acc.2 + r.2))
    (r2.1, r1.2 + r2.2)

/-- Embedding of `ClientPatcher.patchDiscordUrl` (clientPatcher.js:254):
length-prefixed replacement first; when it finds nothing, a UTF-16LE pass
over the original data. -/
def patchDiscordUrl (data : List Nat) : List Nat × Nat :=
  let lpRes := replaceBytes data (stringToLengthPrefixed ".gg/hytale")
    (stringToLengthPrefixed ".gg/hf2pdc")
  if lpRes.2 > 0 then lpRes
  else
    (findAllOccurrences data (stringToUtf16LE ".gg/hytale")).foldl
      (fun acc pos => (writeAt acc.1 pos (stringToUtf16LE ".gg/hf2pdc"), acc.2 + 1)) (data, 0)

/-! ## Patcher state machine (clientPatcher.js:287-498)

The filesystem state a `patchClient` run touches: the client binary's bytes,
the `.patched_custom` flag record (only its `targetDomain` field is ever
read back), and the `.original` backup copy.  Superseded backups are
archived with a timestamp suffix in the source; the archive pile is not
observable by any later run, so it is not carried in the state. -/

structure PatcherState where
  binary : List Nat
  flag : Option String
  backup : Option (List Nat)
deriving DecidableEq, Repr

/-- Result of `getPatchStatus` (clientPatcher.js:287). -/
structure PatchStatus where
  patched : Bool
  currentDomain : Option String
  needsRestore : Bool
deriving DecidableEq, Repr

/-- Embedding of `ClientPatcher.getPatchStatus` (clientPatcher.js:287): the
flag record is trusted only when its target domain matches the configured
one and the binary still contains the length-prefixed main domain. -/
def getPatchStatus (st : PatcherState) (cfgDomain : String) : PatchStatus :=
  let newDomain := getNewDomain cfgDomain
  match st.flag with
  | none => { patched := false, currentDomain := none, needsRestore := false }
  | some currentDomain =>
    if currentDomain = newDomain then
      if bufIncludes st.binary
          (stringToLengthPrefixed (getDomainStrategy newDomain).mainDomain) then
        { patched := true, currentDomain := some currentDomain, needsRestore := false }
      else
        { patched := false, currentDomain := none, needsRestore := false }
    else
      { patched := false, currentDomain := some currentDomain, needsRestore := true }

/-- Embedding of `ClientPatcher.restoreFromBackup` (clientPatcher.js:328):
with a backup present the binary is restored and the flag file removed;
without one the state is untouched. -/
def restoreFromBackup (st : PatcherState) : PatcherState :=
  match st.backup with
  | some b => { st with binary := b, flag := none }
  | none => st

/-- Embedding of `ClientPatcher.backupClient` (clientPatcher.js:366): create
the backup if missing; if the binary's size differs from the backup's, the
stale backup is archived away and replaced by a fresh copy. -/
def backupClient (st : PatcherState) : PatcherState :=
  match st.backup with
  | none => { st with backup := some st.binary }
  | some b =>
    if st.binary.length ≠ b.length then { st with backup := some st.binary }
    else st

/-- Observable result of a `patchClient` call: `wrote` records whether
`fs.writeFileSync` ran on the binary. -/
structure PatchResult where
  success : Bool
  alreadyPatched : Bool
  patchCount : Nat
  wrote : Bool
  warning : Bool
  legacyFormat : Bool
deriving DecidableEq, Repr

/-- Write phase of `patchClient` (clientPatcher.js:456-498), entered after
the status checks: apply the domain and Discord patches; when both find
nothing, retry with the legacy UTF-16LE format on the data as read; a write
is followed by `markAsPatched`, which records the target domain in the flag
file. -/
def patchWrite (st2 : PatcherState) (newDomain : String) : PatcherState × PatchResult :=
  let pd := applyDomainPatches st2.binary newDomain "https://"
  let fd := patchDiscordUrl pd.1
  if pd.2 = 0 ∧ fd.2 = 0 then
    let lr := findAndReplaceDomainSmart st2.binary ORIGINAL_DOMAIN
      (getDomainStrategy newDomain).mainDomain
    if lr.2 > 0 then
      ({ st2 with binary := lr.1, flag := some newDomain },
       { success := true, alreadyPatched := false, patchCount := lr.2, wrote := true,
         warning := false, legacyFormat := true })
    else
      (st2,
       { success := true, alreadyPatched := false, patchCount := 0, wrote := false,
         warning := true, legacyFormat := false })
  else
    ({ st2 with binary := fd.1, flag := some newDomain },
     { success := true, alreadyPatched := false, patchCount := pd.2 + fd.2, wrote := true,
       warning := false, legacyFormat := false })

/-- Embedding of `ClientPatcher.patchClient` (clientPatcher.js:416) as a
state transition, with the configured domain as a parameter: an
already-patched status returns immediately without touching the state;
otherwise restore (when the flag names a different domain), refresh the
backup, and run the write phase. -/
def patchClient (st : PatcherState) (cfgDomain : String) : PatcherState × PatchResult :=
  let status := getPatchStatus st cfgDomain
  if status.patched then
    (st,
     { success := true, alreadyPatched := true, patchCount := 0, wrote := false,
       warning := false, legacyFormat := false })
  else
    patchWrite (backupClient (if status.needsRestore then restoreFromBackup st else st))
      (getNewDomain cfgDomain)

/-! ## Archive acquirer (differentialUpdateManager.js:11-60)

Files are modelled by their content digests; `validateChecksum` compares a
digest against an expected checksum.  The download is an oracle: `.ok d`
means the download completed and left a file with digest `d` at the target
path, `.error leftover` means it threw, with `leftover` whatever partial
file state the failure left behind. -/

inductive AcquireErr
  | platform
  | network
  | integrity
deriving DecidableEq, Repr

/-- Outcome of `acquireGameArchive`: the thrown-or-returned result, plus the
digest of whatever file is left at the target path (`none` = no file). -/
structure AcquireOutcome where
  result : Except AcquireErr Unit
  fileAfter : Option String
deriving Repr

/-- Download-and-validate phase of `acquireGameArchive`
(differentialUpdateManager.js:32-59): a failed download is rethrown wrapped
(`network`); a completed download is checksum-validated, and on mismatch the
file is unlinked and an integrity error thrown. -/
def acquireDownloadPhase (download : Except (Option String) String)
    (checksum : Option String) : AcquireOutcome :=
  match download with
  | .error leftover => { result := .error .network, fileAfter := leftover }
  | .ok digest =>
    if validateChecksum digest checksum then { result := .ok (), fileAfter := some digest }
    else { result := .error .integrity, fileAfter := none }

/-- Whether the cache branch of `acquireGameArchive` returns the existing
file: it must exceed 1 MiB and validate against the checksum
(differentialUpdateManager.js:19-30). -/
def usesCache (cached : Option (Nat × String)) (checksum : Option String) : Bool :=
  match cached with
  | some (size, digest) => size > 1024 * 1024 && validateChecksum digest checksum
  | none => false

/-- Embedding of `acquireGameArchive` (differentialUpdateManager.js:11):
unsupported platform throws first; a valid large cached file is reused; a
mismatching large cached file is deleted before the download overwrites the
path; otherwise download and validate. -/
def acquireGameArchive (osName arch : String) (cached : Option (Nat × String))
    (download : Except (Option String) String) (checksum : Option String) : AcquireOutcome :=
  if osName = "darwin" ∧ arch = "amd64" then
    { result := .error .platform, fileAfter := cached.map (·.2) }
  else
    match cached with
    | some (size, digest) =>
      if size > 1024 * 1024 then
        if validateChecksum digest checksum then { result := .ok (), fileAfter := some digest }
        else acquireDownloadPhase download checksum
      else acquireDownloadPhase download checksum
    | none => acquireDownloadPhase download checksum

/-! ## Update orchestrator (differentialUpdateManager.js:155-250)

`performIntelligentUpdate` is embedded as a pure run function.  Per-step
effects are oracles: `details` stands for `extractVersionDetails` (awaited
per step), and `outcome` says, for each step index, whether its
`acquireGameArchive` call, its `deployGameArchive` call, or neither threw.
The installed-version record (the config collaborator's `version_client`
entry, read by `getInstalledClientVersion` and written by
`saveVersionClient`) is threaded as explicit state, and the run returns
traces of everything observable: versions saved, versions whose deployment
completed, acquisition calls with their checksum arguments, and per-step
differential decisions. -/

inductive StepOutcome
  | ok
  | acquireFail
  | deployFail
deriving DecidableEq, Repr

/-- One `acquireGameArchive` call made by the orchestrator, with the
arguments the source passes. -/
structure Acquisition where
  url : String
  checksum : Option String
  isDifferential : Bool
deriving DecidableEq, Repr

/-- Per-step trace entry of the plan loop. -/
structure StepTrace where
  version : String
  recordBefore : Option String
  usedDifferential : Bool
deriving DecidableEq, Repr

/-- Final state of a `performIntelligentUpdate` run. -/
structure RunState where
  record : Option String
  saved : List String
  deployed : List String
  acquisitions : List Acquisition
  steps : List StepTrace
  failed : Bool
deriving DecidableEq, Repr

/-- The plan loop (differentialUpdateManager.js:206-247): per step, re-read
the installed version, decide differential vs full, acquire and deploy, and
only then `saveVersionClient(patchVersion)`.  A throw from acquisition or
deployment aborts the remaining plan. -/
def runPlanAux (details : String → VersionDetails) (outcome : Nat → StepOutcome) :
    Nat → Option String → List String → RunState
  | _, record, [] =>
    { record := record, saved := [], deployed := [], acquisitions := [], steps := [],
      failed := false }
  | idx, record, v :: rest =>
    let d := details v
    let canDiff := canUseDifferentialUpdate record d
    let useDiff := canDiff && optTruthy d.differentialUrl
    let acq : Acquisition :=
      if useDiff then
        { url := d.differentialUrl.getD "", checksum := d.checksum, isDifferential := true }
      else
        { url := d.fullUrl, checksum := none, isDifferential := false }
    let step : StepTrace := { version := v, recordBefore := record, usedDifferential := useDiff }
    match outcome idx with
    | .acquireFail =>
      { record := record, saved := [], deployed := [], acquisitions := [acq], steps := [step],
        failed := true }
    | .deployFail =>
      { record := record, saved := [], deployed := [], acquisitions := [acq], steps := [step],
        failed := true }
    | .ok =>
      let tail := runPlanAux details outcome (idx + 1) (some v) rest
      { record := tail.record
        saved := v :: tail.saved
        deployed := v :: tail.deployed
        acquisitions := acq :: tail.acquisitions
        steps := step :: tail.steps
        failed := tail.failed }

/-- The single full-archive install used for the pre-release branch and for
a clean install (differentialUpdateManager.js:163-195): acquire the full
archive with a `null` checksum, deploy, then save the target version. -/
def singleFullInstall (targetVersion : String) (current : Option String)
    (details : String → VersionDetails) (outcome : Nat → StepOutcome) : RunState :=
  let d := details targetVersion
  let acq : Acquisition := { url := d.fullUrl, checksum := none, isDifferential := false }
  match outcome 0 with
  | .ok =>
    { record := some targetVersion, saved := [targetVersion], deployed := [targetVersion],
      acquisitions := [acq], steps := [], failed := false }
  | _ =>
    { record := current, saved := [], deployed := [], acquisitions := [acq], steps := [],
      failed := true }

/-- Embedding of `performIntelligentUpdate` (differentialUpdateManager.js:155):
non-release branch or falsy current version force a single full install;
otherwise the plan from `needsIntermediatePatches` runs step by step (an
empty plan is a no-op). -/
def performIntelligentUpdate (targetVersion branch : String) (current : Option String)
    (details : String → VersionDetails) (outcome : Nat → StepOutcome) : RunState :=
  if branch ≠ "release" then singleFullInstall targetVersion current details outcome
  else if ¬optTruthy current then singleFullInstall targetVersion current details outcome
  else if (needsIntermediatePatches current targetVersion).isEmpty then
    { record := current, saved := [], deployed := [], acquisitions := [], steps := [],
      failed := false }
  else runPlanAux details outcome 0 current (needsIntermediatePatches current targetVersion)

/-! ## Latest-version fetch (part_003:89-125) -/

/-- Embedding of `getLatestClientVersion` (part_003:89) over two oracles:
the primary `getLatestVersionFromNewAPI` result, and the direct `/infos`
fallback request, whose payload is the platform-and-branch `newest` field
(`none` when the response shape is invalid).  Every failure path is caught
and the function falls back to the built-in string `"9.pwr"`; it never
rethrows, so the `Except` result is always `.ok`. -/
def getLatestClientVersion (primary : Except Unit String)
    (fallbackInfos : Except Unit (Option Int)) : Except Unit String :=
  match primary with
  | .ok v => .ok v
  | .error _ =>
    match fallbackInfos with
    | .ok (some newest) =>
      if newest ≠ 0 then .ok (toString newest ++ ".pwr") else .ok "9.pwr"
    | .ok none => .ok "9.pwr"
    | .error _ => .ok "9.pwr"

/-! ## Helper lemmas -/

theorem writeAt_length (buf : List Nat) (pos : Nat) (bytes : List Nat) :
    (writeAt buf pos bytes).length = buf.length := by
  simp [writeAt]

/-- A fold whose step preserves the length of the buffer component
preserves it overall. -/
theorem foldl_fst_length {α : Type} (f : List Nat × Nat → α → List Nat × Nat)
    (hf : ∀ acc a, ((f acc a).1).length = acc.1.length) :
    ∀ (ps : List α) (acc : List Nat × Nat), ((ps.foldl f acc).1).length = acc.1.length := by
  intro ps
  induction ps with
  | nil => intro acc; rfl
  | cons p ps ih => intro acc; rw [List.foldl_cons, ih, hf]

theorem replaceBytes_length (buffer oldBytes newBytes : List Nat) :
    (replaceBytes buffer oldBytes newBytes).1.length = buffer.length := by
  unfold replaceBytes
  split
  · rfl
  · exact foldl_fst_length _ (fun acc a => writeAt_length _ _ _) _ _

theorem findAndReplaceDomainSmart_length (data : List Nat) (oldDomain newDomain : String) :
    (findAndReplaceDomainSmart data oldDomain newDomain).1.length = data.length := by
  unfold findAndReplaceDomainSmart
  refine foldl_fst_length _ (fun acc a => ?_) _ _
  dsimp only
  split
  · rfl
  · split
    · simp [writeAt_length]
    · rfl

theorem applyDomainPatches_length (data : List Nat) (domain protocol : String) :
    (applyDomainPatches data domain protocol).1.length = data.length := by
  unfold applyDomainPatches
  dsimp only
  refine Eq.trans (foldl_fst_length _ (fun acc a => ?_) _ _) ?_
  · dsimp only
    exact replaceBytes_length _ _ _
  · rw [replaceBytes_length, replaceBytes_length]

theorem patchDiscordUrl_length (data : List Nat) :
    (patchDiscordUrl data).1.length = data.length := by
  unfold patchDiscordUrl
  dsimp only
  split
  · exact replaceBytes_length _ _ _
  · exact foldl_fst_length _ (fun acc a => writeAt_length _ _ _) _ _

theorem lpPayload_length : ∀ (l : List Char), l ≠ [] →
    (lpPayload l).length = l.length + (l.length - 1)
  | [], h => absurd rfl h
  | [_], _ => by simp [lpPayload]
  | c :: c' :: rest, _ => by
    have ih := lpPayload_length (c' :: rest) (by simp)
    simp only [lpPayload, List.length_cons] at ih ⊢
    omega

theorem lpPayload_getD_even : ∀ (l : List Char) (i : Nat), i < l.length →
    (lpPayload l).getD (2 * i) 999 = (l.getD i ' ').toNat % 256
  | [], _, h => by simp at h
  | [c], 0, _ => by simp [lpPayload]
  | [c], i + 1, h => by simp at h
  | c :: c' :: rest, 0, _ => by simp [lpPayload]
  | c :: c' :: rest, i + 1, h => by
    have ih := lpPayload_getD_even (c' :: rest) i (by simpa using h)
    have h2 : 2 * (i + 1) = 2 * i + 1 + 1 := by ring
    simpa only [lpPayload, h2, List.getD_cons_succ] using ih

theorem lpPayload_getD_odd : ∀ (l : List Char) (i : Nat), i + 1 < l.length →
    (lpPayload l).getD (2 * i + 1) 999 = 0
  | [], _, h => by simp at h
  | [_], i, h => by simp at h
  | c :: c' :: rest, 0, _ => by simp [lpPayload]
  | c :: c' :: rest, i + 1, h => by
    have ih := lpPayload_getD_odd (c' :: rest) i (by simpa using h)
    have h2 : 2 * (i + 1) + 1 = 2 * i + 1 + 1 + 1 := by ring
    simpa only [lpPayload, h2, List.getD_cons_succ] using ih

theorem String.data_ne_nil_of_ne_empty {s : String} (h : s ≠ "") : s.data ≠ [] := by
  intro hd
  apply h
  cases s with
  | mk l =>
    simp only at hd
    subst hd
    rfl

/-! ## Claim C8 -/

/-- C8: a domain of length at most 10 gets `direct` mode with the whole
domain as `mainDomain` and an empty subdomain-prefix; a domain of length 11
to 16 gets `split` mode with the first 6 characters as the prefix and the
remainder as `mainDomain`; and `getNewDomain` rejects a configured domain of
length below 4 or above 16 in favour of the built-in default. -/
theorem c8_domain_strategy (d : String) :
    (d.length ≤ 10 →
      (getDomainStrategy d).mode = "direct"
      ∧ (getDomainStrategy d).mainDomain = d
      ∧ (getDomainStrategy d).subdomainPrefix = "")
    ∧ (11 ≤ d.length → d.length ≤ 16 →
      (getDomainStrategy d).mode = "split"
      ∧ (getDomainStrategy d).subdomainPrefix = (⟨d.data.take 6⟩ : String)
      ∧ (getDomainStrategy d).mainDomain = (⟨d.data.drop 6⟩ : String))
    ∧ (d.length < 4 ∨ d.length > 16 → getNewDomain d = DEFAULT_NEW_DOMAIN) := by
  refine ⟨fun h => ?_, fun h1 _ => ?_, fun h => ?_⟩
  · simp [getDomainStrategy, h]
  · have h10 : ¬d.length ≤ 10 := by omega
    simp [getDomainStrategy, h10]
  · rcases h with h | h
    · simp [getNewDomain, h]
    · have h4 : ¬d.length < 4 := by omega
      simp [getNewDomain, h4, h]

/-- Witness for C8 at lengths 10, 11, 3 and 17. -/
theorem c8_domain_strategy_witness :
    ((getDomainStrategy "abcdefghij").mode = "direct"
      ∧ (getDomainStrategy "abcdefghij").mainDomain = "abcdefghij")
    ∧ ((getDomainStrategy "abcdefghijk").mode = "split"
      ∧ (getDomainStrategy "abcdefghijk").subdomainPrefix = "abcdef")
    ∧ getNewDomain "abc" = DEFAULT_NEW_DOMAIN
    ∧ getNewDomain "abcdefghijklmnopq" = DEFAULT_NEW_DOMAIN := by
  refine ⟨⟨?_, ?_⟩, ⟨?_, ?_⟩, ?_, ?_⟩
  · exact ((c8_domain_strategy "abcdefghij").1 (by decide)).1
  · exact ((c8_domain_strategy "abcdefghij").1 (by decide)).2.1
  · exact ((c8_domain_strategy "abcdefghijk").2.1 (by decide) (by decide)).1
  · exact Eq.trans ((c8_domain_strategy "abcdefghijk").2.1 (by decide) (by decide)).2.1 (by decide)
  · exact (c8_domain_strategy "abc").2.2 (Or.inl (by decide))
  · exact (c8_domain_strategy "abcdefghijklmnopq").2.2 (Or.inr (by decide))

/-! ## Claim C9 -/

/-- C9: every in-memory patch pass is length-preserving — `replaceBytes`,
`findAndReplaceDomainSmart`, `applyDomainPatches` and `patchDiscordUrl` all
return a buffer of exactly the input's byte length, and `replaceBytes`
skips (count 0) a replacement pattern longer than the pattern it
replaces. -/
theorem c9_length_preservation (buf oldBytes newBytes data : List Nat)
    (oldDomain newDomain domain protocol : String) :
    (replaceBytes buf oldBytes newBytes).1.length = buf.length
    ∧ (newBytes.length > oldBytes.length → replaceBytes buf oldBytes newBytes = (buf, 0))
    ∧ (findAndReplaceDomainSmart data oldDomain newDomain).1.length = data.length
    ∧ (applyDomainPatches data domain protocol).1.length = data.length
    ∧ (patchDiscordUrl data).1.length = data.length :=
  ⟨replaceBytes_length _ _ _,
   fun h => by unfold replaceBytes; rw [if_pos h],
   findAndReplaceDomainSmart_length _ _ _,
   applyDomainPatches_length _ _ _,
   patchDiscordUrl_length _⟩

/-- Witness for C9: a longer replacement is skipped with count 0 and the
passes preserve a concrete buffer's length. -/
theorem c9_length_preservation_witness :
    replaceBytes [1, 2, 3] [2] [7, 7] = ([1, 2, 3], 0)
    ∧ (applyDomainPatches [1, 2, 3] "abcd" "https://").1.length = 3 :=
  ⟨(c9_length_preservation [1, 2, 3] [2] [7, 7] [] "" "" "" "").2.1 (by decide),
   (c9_length_preservation [] [] [] [1, 2, 3] "" "" "abcd" "https://").2.2.2.1⟩

/-! ## Claim C7 -/

set_option maxRecDepth 4000 in
/-- C7 counterexample: for a 256-character string the first 4 bytes of
`stringToLengthPrefixed` are not the 32-bit little-endian encoding of the
length — `result[0] = length` stores `length` truncated modulo 256 and the
bytes at offsets 1..3 are always zero, so the prefix reads `[0,0,0,0]`
instead of `[0,1,0,0]`. -/
theorem c7_counterexample :
    (stringToLengthPrefixed (String.mk (List.replicate 256 'a'))).take 4 = [0, 0, 0, 0]
    ∧ le32 (String.mk (List.replicate 256 'a')).length = [0, 1, 0, 0]
    ∧ (stringToLengthPrefixed (String.mk (List.replicate 256 'a'))).take 4
      ≠ le32 (String.mk (List.replicate 256 'a')).length := by
  refine ⟨by decide, by decide, ?_⟩
  intro h
  have h1 : (stringToLengthPrefixed (String.mk (List.replicate 256 'a'))).take 4
      = [0, 0, 0, 0] := by decide
  have h2 : le32 (String.mk (List.replicate 256 'a')).length = [0, 1, 0, 0] := by decide
  rw [h1, h2] at h
  simp at h

/-- C7 (amended to strings of length at most 255 over characters with codes
below 256 — the source writes `length` and each `charCodeAt` into single
`Buffer` bytes, truncating modulo 256): for a non-empty such string the
record is `4 + len + (len - 1)` bytes, its first 4 bytes are the 32-bit LE
length, characters sit at even payload offsets, and a zero byte follows
every character except the last. -/
theorem c7_length_prefixed_layout (s : String) (h0 : s ≠ "") (h1 : s.length ≤ 255)
    (h2 : ∀ c ∈ s.data, c.toNat < 256) :
    (stringToLengthPrefixed s).length = 4 + s.length + (s.length - 1)
    ∧ (stringToLengthPrefixed s).take 4 = le32 s.length
    ∧ (∀ i, i < s.length →
        ((stringToLengthPrefixed s).drop 4).getD (2 * i) 999 = (s.data.getD i ' ').toNat)
    ∧ (∀ i, i + 1 < s.length →
        ((stringToLengthPrefixed s).drop 4).getD (2 * i + 1) 999 = 0) := by
  have hne : s.data ≠ [] := String.data_ne_nil_of_ne_empty h0
  have hlen : s.length = s.data.length := rfl
  have hemp : s.data.isEmpty = false := by
    cases hd : s.data with
    | nil => exact absurd hd hne
    | cons a l => rfl
  have hlt : s.data.length < 256 := by rw [← hlen]; omega
  have hform : stringToLengthPrefixed s
      = s.data.length % 256 :: 0 :: 0 :: 0 :: lpPayload s.data := by
    unfold stringToLengthPrefixed
    rw [hemp]
    rfl
  refine ⟨?_, ?_, ?_, ?_⟩
  · rw [hform]
    simp only [List.length_cons, lpPayload_length s.data hne, hlen]
    omega
  · rw [hform]
    show (s.data.length % 256 :: 0 :: 0 :: 0 :: lpPayload s.data).take 4 = le32 s.data.length
    have e1 : s.data.length % 256 = s.data.length := Nat.mod_eq_of_lt hlt
    have e2 : s.data.length / 256 = 0 := Nat.div_eq_of_lt hlt
    have e3 : s.data.length / 65536 = 0 := Nat.div_eq_of_lt (by omega)
    have e4 : s.data.length / 16777216 = 0 := Nat.div_eq_of_lt (by omega)
    simp only [le32, List.take_succ_cons, List.take_zero, e1, e2, e3, e4]
  · intro i hi
    rw [hform]
    simp only [List.drop_succ_cons, List.drop_zero]
    rw [lpPayload_getD_even s.data i (by rw [← hlen]; exact hi)]
    have hmem : s.data.getD i ' ' ∈ s.data := by
      rw [List.getD_eq_getElem s.data ' ' (by rw [← hlen]; exact hi)]
      exact List.getElem_mem _
    exact Nat.mod_eq_of_lt (h2 _ hmem)
  · intro i hi
    rw [hform]
    simp only [List.drop_succ_cons, List.drop_zero]
    exact lpPayload_getD_odd s.data i (by rw [← hlen]; exact hi)

/-- Witness for C7 at `s = "ab"`. -/
theorem c7_length_prefixed_layout_witness :
    (stringToLengthPrefixed "ab").length = 4 + "ab".length + ("ab".length - 1)
    ∧ (stringToLengthPrefixed "ab").take 4 = le32 "ab".length :=
  ⟨(c7_length_prefixed_layout "ab" (by decide) (by decide) (by decide)).1,
   (c7_length_prefixed_layout "ab" (by decide) (by decide) (by decide)).2.1⟩

/-! ## Claim C2 -/

/-- C2 counterexample: the empty string is a non-null current version whose
extracted build number (0) is below the target's (1), yet
`needsIntermediatePatches` returns the empty plan, not `["1.pwr"]` — the
source's `if (!currentVersion)` guard treats the empty string like `null`. -/
theorem c2_counterexample :
    extractVersionNumber (some "") < extractVersionNumber (some "1.pwr")
    ∧ needsIntermediatePatches (some "") "1.pwr" = []
    ∧ needsIntermediatePatches (some "") "1.pwr" ≠ ["1.pwr"] := by
  refine ⟨by decide, by decide, ?_⟩
  intro h
  rw [show needsIntermediatePatches (some "") "1.pwr" = [] from by decide] at h
  simp at h

/-- Truthiness of a non-empty string. -/
theorem optTruthy_some_of_ne {s : String} (h : s ≠ "") : optTruthy (some s) = true := by
  simp [optTruthy, h]

/-- Under an all-success outcome oracle the plan loop deploys every plan
entry in order. -/
theorem runPlanAux_deployed_allok (details : String → VersionDetails) :
    ∀ (plan : List String) (idx : Nat) (record : Option String),
      (runPlanAux details (fun _ => StepOutcome.ok) idx record plan).deployed = plan := by
  intro plan
  induction plan with
  | nil => intro idx record; rfl
  | cons v rest ih =>
    intro idx record
    simp only [runPlanAux]
    rw [ih]

/-- C2 (amended to non-null, non-empty current versions; the run conjunct
is for a run in which every step's acquisition and deployment succeed): on
the release branch with extracted builds `current < target`,
`needsIntermediatePatches` is exactly `[current+1, …, target]` rendered as
`"N.pwr"` strings, of length `target - current`, with strictly ascending
build numbers, and `performIntelligentUpdate` deploys exactly this list in
this order. -/
theorem c2_update_plan (cur tgt : String) (details : String → VersionDetails)
    (h0 : cur ≠ "")
    (hlt : extractVersionNumber (some cur) < extractVersionNumber (some tgt)) :
    needsIntermediatePatches (some cur) tgt
      = (List.range (extractVersionNumber (some tgt)
            - extractVersionNumber (some cur)).toNat).map
          (fun k => pwrName (extractVersionNumber (some cur) + 1 + Int.ofNat k))
    ∧ (needsIntermediatePatches (some cur) tgt).length
      = (extractVersionNumber (some tgt) - extractVersionNumber (some cur)).toNat
    ∧ List.Pairwise (· < ·)
        ((List.range (extractVersionNumber (some tgt)
            - extractVersionNumber (some cur)).toNat).map
          (fun k => extractVersionNumber (some cur) + 1 + Int.ofNat k))
    ∧ (performIntelligentUpdate tgt "release" (some cur) details
        (fun _ => StepOutcome.ok)).deployed = needsIntermediatePatches (some cur) tgt := by
  have htr : optTruthy (some cur) = true := optTruthy_some_of_ne h0
  have hplan : needsIntermediatePatches (some cur) tgt
      = (List.range (extractVersionNumber (some tgt)
            - extractVersionNumber (some cur)).toNat).map
          (fun k => pwrName (extractVersionNumber (some cur) + 1 + Int.ofNat k)) := by
    unfold needsIntermediatePatches
    rw [htr]
    simp
  refine ⟨hplan, ?_, ?_, ?_⟩
  · rw [hplan]
    simp
  · refine List.Pairwise.map _ (fun a b hab => ?_) (List.pairwise_lt_range _)
    have hcast : Int.ofNat a < Int.ofNat b := Int.ofNat_lt.mpr hab
    omega
  · have hlen : (needsIntermediatePatches (some cur) tgt).length ≠ 0 := by
      rw [hplan]
      simp only [List.length_map, List.length_range]
      omega
    have hne : (needsIntermediatePatches (some cur) tgt).isEmpty = false := by
      cases hp : needsIntermediatePatches (some cur) tgt with
      | nil => rw [hp] at hlen; simp at hlen
      | cons a l => rfl
    unfold performIntelligentUpdate
    simp only [ne_eq, not_true_eq_false, if_false, htr, Bool.not_true, Bool.false_eq_true,
      hne, reduceIte]
    exact runPlanAux_deployed_allok details _ 0 (some cur)

/-- Witness for C2 at `current = "5.pwr"`, `target = "8.pwr"`. -/
theorem c2_update_plan_witness :
    needsIntermediatePatches (some "5.pwr") "8.pwr" = ["6.pwr", "7.pwr", "8.pwr"]
    ∧ (performIntelligentUpdate "8.pwr" "release" (some "5.pwr")
        (fun v => extractVersionDetails v "release" "windows" "amd64")
        (fun _ => StepOutcome.ok)).deployed = needsIntermediatePatches (some "5.pwr") "8.pwr" := by
  constructor
  · rw [(c2_update_plan "5.pwr" "8.pwr"
      (fun v => extractVersionDetails v "release" "windows" "amd64")
      (by decide) (by decide)).1]
    decide
  · exact (c2_update_plan "5.pwr" "8.pwr"
      (fun v => extractVersionDetails v "release" "windows" "amd64")
      (by decide) (by decide)).2.2.2

/-! ## Claim C1 -/


/-- Last element of a list, or a fallback when the list is empty. -/
def lastOr (l : List String) (dflt : Option String) : Option String :=
  match l.getLast? with
  | some v => some v
  | none => dflt

theorem lastOr_cons (v : String) (l : List String) (dflt : Option String) :
    lastOr (v :: l) dflt = lastOr l (some v) := by
  cases l with
  | nil => rfl
  | cons w l =>
    unfold lastOr
    rw [List.getLast?_cons_cons]
    cases h : (w :: l).getLast? with
    | some x => rfl
    | none => simp at h

/-- Invariant of the plan loop: the versions saved are exactly the versions
deployed, and the record ends at the last deployed version (or stays at its
starting value when nothing was deployed). -/
theorem runPlanAux_record_invariant (details : String → VersionDetails)
    (outcome : Nat → StepOutcome) :
    ∀ (plan : List String) (idx : Nat) (record : Option String),
      (runPlanAux details outcome idx record plan).saved
        = (runPlanAux details outcome idx record plan).deployed
      ∧ (runPlanAux details outcome idx record plan).record
        = lastOr (runPlanAux details outcome idx record plan).deployed record := by
  intro plan
  induction plan with
  | nil => intro idx record; exact ⟨rfl, rfl⟩
  | cons v rest ih =>
    intro idx record
    simp only [runPlanAux]
    cases outcome idx with
    | acquireFail => exact ⟨rfl, rfl⟩
    | deployFail => exact ⟨rfl, rfl⟩
    | ok =>
      refine ⟨?_, ?_⟩
      · simp only
        rw [(ih (idx + 1) (some v)).1]
      · simp only
        rw [lastOr_cons]
        exact (ih (idx + 1) (some v)).2

/-- C1: `saveVersionClient` runs for exactly the steps whose
`deployGameArchive` completed (the saved and deployed version lists
coincide), and after any run — including runs where a step's acquisition or
deployment throws — the installed-version record equals the last
successfully deployed version, or its starting value when no step deployed;
it is never advanced early and never rolled back. -/
theorem c1_record_after_deploy (targetVersion branch : String) (current : Option String)
    (details : String → VersionDetails) (outcome : Nat → StepOutcome) :
    (performIntelligentUpdate targetVersion branch current details outcome).saved
      = (performIntelligentUpdate targetVersion branch current details outcome).deployed
    ∧ (performIntelligentUpdate targetVersion branch current details outcome).record
      = lastOr (performIntelligentUpdate targetVersion branch current details outcome).deployed
          current := by
  unfold performIntelligentUpdate
  split
  · unfold singleFullInstall
    cases outcome 0 with
    | ok => exact ⟨rfl, rfl⟩
    | acquireFail => exact ⟨rfl, rfl⟩
    | deployFail => exact ⟨rfl, rfl⟩
  · split
    · unfold singleFullInstall
      cases outcome 0 with
      | ok => exact ⟨rfl, rfl⟩
      | acquireFail => exact ⟨rfl, rfl⟩
      | deployFail => exact ⟨rfl, rfl⟩
    · split
      · exact ⟨rfl, rfl⟩
      · exact runPlanAux_record_invariant details outcome _ 0 current

/-! ## Claim C4 -/

/-- Every plan entry is a `"N.pwr"` string, hence non-empty. -/
theorem needsIntermediatePatches_mem_ne_empty (cv : Option String) (tv : String) :
    ∀ v ∈ needsIntermediatePatches cv tv, v ≠ "" := by
  unfold needsIntermediatePatches
  split
  · simp
  · intro v hv
    simp only [List.mem_map] at hv
    obtain ⟨k, -, rfl⟩ := hv
    unfold pwrName
    intro h
    have hlen := congrArg String.length h
    rw [String.length_append] at hlen
    have h4 : (".pwr" : String).length = 4 := rfl
    have he : ("" : String).length = 0 := rfl
    rw [h4, he] at hlen
    omega

/-- The differential-vs-full decision of one plan step (the source's
`!canDifferential || !versionDetails.differentialUrl` test), rephrased:
with a truthy record, differential is chosen iff the details carry a truthy
differential URL, are flagged `isDifferential`, and declare a source whose
build number matches the record's. -/
theorem stepChoice_iff (record : Option String) (d : VersionDetails)
    (htr : optTruthy record = true) :
    (canUseDifferentialUpdate record d && optTruthy d.differentialUrl) = true ↔
      (optTruthy d.differentialUrl = true ∧ d.isDifferential = true
       ∧ extractVersionNumber record = extractVersionNumber d.sourceVersion) := by
  unfold canUseDifferentialUpdate
  by_cases hu : optTruthy d.differentialUrl
  · by_cases hd : d.isDifferential
    · simp [hu, hd, htr, beq_iff_eq]
    · simp [hu, hd]
  · simp [hu]

/-- Per-step differential decision of the plan loop, as recorded in the
step trace: see `stepChoice_iff`. -/
theorem runPlanAux_steps_differential (details : String → VersionDetails)
    (outcome : Nat → StepOutcome) :
    ∀ (plan : List String) (idx : Nat) (record : Option String),
      optTruthy record = true → (∀ v ∈ plan, v ≠ "") →
      ∀ s ∈ (runPlanAux details outcome idx record plan).steps,
        (s.usedDifferential = true ↔
          (optTruthy (details s.version).differentialUrl = true
           ∧ (details s.version).isDifferential = true
           ∧ extractVersionNumber s.recordBefore
               = extractVersionNumber (details s.version).sourceVersion)) := by
  intro plan
  induction plan with
  | nil => intro idx record _ _ s hs; simp [runPlanAux] at hs
  | cons v rest ih =>
    intro idx record htr hne s hs
    simp only [runPlanAux] at hs
    cases houtcome : outcome idx with
    | acquireFail =>
      rw [houtcome] at hs
      simp only [List.mem_singleton] at hs
      subst hs
      exact stepChoice_iff record (details v) htr
    | deployFail =>
      rw [houtcome] at hs
      simp only [List.mem_singleton] at hs
      subst hs
      exact stepChoice_iff record (details v) htr
    | ok =>
      rw [houtcome] at hs
      simp only [List.mem_cons] at hs
      rcases hs with hs | hs
      · subst hs
        exact stepChoice_iff record (details v) htr
      · exact ih (idx + 1) (some v)
          (optTruthy_some_of_ne (hne v (List.mem_cons_self v rest)))
          (fun w hw => hne w (List.mem_cons_of_mem v hw)) s hs

/-- C4: in a release-branch run with a non-empty installed version, every
plan step deploys the differential archive iff the step's version details
carry a (truthy) differential URL flagged as a true differential whose
declared source version's build number equals the installed-version record
re-read immediately before that step; in every other case the step uses the
full archive. -/
theorem c4_differential_choice (tgt cur : String) (details : String → VersionDetails)
    (outcome : Nat → StepOutcome) (hcur : cur ≠ "") :
    ∀ s ∈ (performIntelligentUpdate tgt "release" (some cur) details outcome).steps,
      (s.usedDifferential = true ↔
        (optTruthy (details s.version).differentialUrl = true
         ∧ (details s.version).isDifferential = true
         ∧ extractVersionNumber s.recordBefore
             = extractVersionNumber (details s.version).sourceVersion)) := by
  intro s hs
  unfold performIntelligentUpdate at hs
  rw [if_neg (by simp)] at hs
  rw [if_neg (by simp [optTruthy_some_of_ne hcur])] at hs
  by_cases hemp : (needsIntermediatePatches (some cur) tgt).isEmpty
  · rw [if_pos hemp] at hs
    simp at hs
  · rw [if_neg hemp] at hs
    exact runPlanAux_steps_differential details outcome _ 0 (some cur)
      (optTruthy_some_of_ne hcur) (needsIntermediatePatches_mem_ne_empty _ _) s hs

/-- Details oracle used by the C4 witness: one version, with a usable
differential declared from source `5.pwr`. -/
def witnessDetails : String → VersionDetails := fun v =>
  { version := v, buildNumber := 6, buildName := "HYTALE-Build-6", fullUrl := "full-url",
    differentialUrl := some "diff-url", checksum := some "cafe", sourceVersion := some "5.pwr",
    isDifferential := true }

/-- Witness for C4: in the run from `5.pwr` to `6.pwr` under
`witnessDetails`, the single step's trace entry satisfies the decision
biconditional (and indeed chose the differential). -/
theorem c4_differential_choice_witness :
    ((({ version := "6.pwr", recordBefore := some "5.pwr", usedDifferential := true } :
        StepTrace).usedDifferential = true) ↔
      (optTruthy (witnessDetails "6.pwr").differentialUrl = true
       ∧ (witnessDetails "6.pwr").isDifferential = true
       ∧ extractVersionNumber (some "5.pwr")
           = extractVersionNumber (witnessDetails "6.pwr").sourceVersion)) :=
  c4_differential_choice "6.pwr" "5.pwr" witnessDetails (fun _ => StepOutcome.ok)
    (by decide)
    { version := "6.pwr", recordBefore := some "5.pwr", usedDifferential := true }
    (by decide)

/-! ## Claim C10 -/

/-- Every full-archive acquisition the plan loop makes carries a `null`
checksum. -/
theorem runPlanAux_full_checksum_none (details : String → VersionDetails)
    (outcome : Nat → StepOutcome) :
    ∀ (plan : List String) (idx : Nat) (record : Option String),
      ∀ a ∈ (runPlanAux details outcome idx record plan).acquisitions,
        a.isDifferential = false → a.checksum = none := by
  intro plan
  induction plan with
  | nil => intro idx record a ha; simp [runPlanAux] at ha
  | cons v rest ih =>
    intro idx record a ha hfull
    simp only [runPlanAux] at ha
    cases houtcome : outcome idx with
    | acquireFail =>
      rw [houtcome] at ha
      simp only [List.mem_singleton] at ha
      subst ha
      by_cases hud : (canUseDifferentialUpdate record (details v)
          && optTruthy (details v).differentialUrl) = true
      · rw [if_pos hud] at hfull
        simp at hfull
      · rw [if_neg hud]
    | deployFail =>
      rw [houtcome] at ha
      simp only [List.mem_singleton] at ha
      subst ha
      by_cases hud : (canUseDifferentialUpdate record (details v)
          && optTruthy (details v).differentialUrl) = true
      · rw [if_pos hud] at hfull
        simp at hfull
      · rw [if_neg hud]
    | ok =>
      rw [houtcome] at ha
      simp only [List.mem_cons] at ha
      rcases ha with ha | ha
      · subst ha
        by_cases hud : (canUseDifferentialUpdate record (details v)
            && optTruthy (details v).differentialUrl) = true
        · rw [if_pos hud] at hfull
          simp at hfull
        · rw [if_neg hud]
      · exact ih (idx + 1) (some v) a ha hfull

/-- C10: `validateChecksum` accepts any file content when the expected
checksum is `null` or the empty string (the digest is never consulted), and
every full-archive acquisition `performIntelligentUpdate` makes passes a
`null` checksum — so every full archive is accepted with no content
integrity check. -/
theorem c10_full_archives_unchecked (digest targetVersion branch : String)
    (current : Option String) (details : String → VersionDetails)
    (outcome : Nat → StepOutcome) :
    validateChecksum digest none = true
    ∧ validateChecksum digest (some "") = true
    ∧ ∀ a ∈ (performIntelligentUpdate targetVersion branch current details outcome).acquisitions,
        a.isDifferential = false → a.checksum = none := by
  refine ⟨rfl, rfl, ?_⟩
  intro a ha hfull
  unfold performIntelligentUpdate at ha
  split at ha
  · unfold singleFullInstall at ha
    cases houtcome : outcome 0 <;> rw [houtcome] at ha <;>
      simp only [List.mem_singleton] at ha <;> subst ha <;> rfl
  · split at ha
    · unfold singleFullInstall at ha
      cases houtcome : outcome 0 <;> rw [houtcome] at ha <;>
        simp only [List.mem_singleton] at ha <;> subst ha <;> rfl
    · split at ha
      · simp at ha
      · exact runPlanAux_full_checksum_none details outcome _ 0 current a ha hfull

/-- Witness for C10: a concrete pre-release run makes one full-archive
acquisition whose checksum argument is `null`. -/
theorem c10_full_archives_unchecked_witness :
    validateChecksum "deadbeef" none = true
    ∧ ({ url := buildArchiveUrl 9 "pre-release" "windows" "amd64", checksum := none,
         isDifferential := false } : Acquisition).checksum = none :=
  ⟨(c10_full_archives_unchecked "deadbeef" "9.pwr" "pre-release" none
      (fun v => extractVersionDetails v "pre-release" "windows" "amd64")
      (fun _ => StepOutcome.ok)).1,
   (c10_full_archives_unchecked "deadbeef" "9.pwr" "pre-release" none
      (fun v => extractVersionDetails v "pre-release" "windows" "amd64")
      (fun _ => StepOutcome.ok)).2.2
     { url := buildArchiveUrl 9 "pre-release" "windows" "amd64", checksum := none,
       isDifferential := false }
     (by decide) rfl⟩

/-! ## Claim C5 -/

/-- C5 counterexample: when the primary fetch and the direct `/infos`
fallback both fail, `getLatestClientVersion` returns the built-in default
version string `"9.pwr"` instead of surfacing the error; and with no
environment override, `getTargetDomain` substitutes the built-in default
domain when the config collaborator throws, instead of surfacing the
failure. -/
theorem c5_counterexample :
    getLatestClientVersion (Except.error ()) (Except.error ()) = Except.ok "9.pwr"
    ∧ getLatestClientVersion (Except.error ()) (Except.error ()) ≠ Except.error ()
    ∧ getTargetDomain none (Except.error ()) = DEFAULT_NEW_DOMAIN := by
  refine ⟨rfl, ?_, rfl⟩
  intro h
  simp [getLatestClientVersion] at h

/-- C5 (amended to what the code does): on every failure of the version
fetch in which the `/infos` fallback also fails, returns an invalid shape,
or reports a falsy `newest` field, `getLatestClientVersion` falls back to
the built-in `"9.pwr"` (it never surfaces the error), and `getTargetDomain`
substitutes the built-in default domain whenever the environment override
is falsy and the config collaborator throws. -/
theorem c5_default_fallbacks (primary : Except Unit String)
    (fallbackInfos : Except Unit (Option Int)) (envDomain : Option String)
    (cfgDomain : Except Unit String)
    (hp : primary = Except.error ())
    (hfb : fallbackInfos = Except.error () ∨ fallbackInfos = Except.ok none
      ∨ fallbackInfos = Except.ok (some 0))
    (henv : optTruthy envDomain = false)
    (hcfg : cfgDomain = Except.error ()) :
    getLatestClientVersion primary fallbackInfos = Except.ok "9.pwr"
    ∧ getTargetDomain envDomain cfgDomain = DEFAULT_NEW_DOMAIN := by
  subst hp
  subst hcfg
  constructor
  · rcases hfb with rfl | rfl | rfl
    · rfl
    · rfl
    · rfl
  · unfold getTargetDomain
    rw [henv]
    rfl

/-- Witness for C5 at concrete failing oracles. -/
theorem c5_default_fallbacks_witness :
    getLatestClientVersion (Except.error ()) (Except.ok none) = Except.ok "9.pwr"
    ∧ getTargetDomain (some "") (Except.error ()) = DEFAULT_NEW_DOMAIN :=
  c5_default_fallbacks (Except.error ()) (Except.ok none) (some "") (Except.error ())
    rfl (Or.inr (Or.inl rfl)) (by decide) rfl

/-! ## Claim C6 -/

/-- With a truthy expected checksum, validation is digest equality. -/
theorem validateChecksum_some {c : String} (digest : String) (hc : c ≠ "") :
    validateChecksum digest (some c) = (digest == c) := by
  unfold validateChecksum
  rw [if_neg (by simp [optTruthy, hc])]
  rfl

/-- C6: when a checksum is supplied, `acquireGameArchive` never returns a
mismatching archive — a successful return leaves a file whose digest equals
the expected checksum — and when the downloaded file's digest differs from
the expected checksum the file is deleted and an integrity error is
raised. -/
theorem c6_checksum_integrity (osName arch : String) (cached : Option (Nat × String))
    (download : Except (Option String) String) (c : String)
    (hplat : ¬(osName = "darwin" ∧ arch = "amd64")) (hc : c ≠ "") :
    ((acquireGameArchive osName arch cached download (some c)).result = Except.ok ()
      → (acquireGameArchive osName arch cached download (some c)).fileAfter = some c)
    ∧ (∀ digest, download = Except.ok digest → digest ≠ c →
        usesCache cached (some c) = false →
        (acquireGameArchive osName arch cached download (some c)).result
            = Except.error AcquireErr.integrity
        ∧ (acquireGameArchive osName arch cached download (some c)).fileAfter = none) := by
  have hphase : ∀ (hres : (acquireDownloadPhase download (some c)).result = Except.ok ()),
      (acquireDownloadPhase download (some c)).fileAfter = some c := by
    intro hres
    unfold acquireDownloadPhase at hres ⊢
    cases download with
    | error leftover => simp at hres
    | ok digest =>
      dsimp only at hres ⊢
      rw [validateChecksum_some digest hc] at hres ⊢
      by_cases hd : digest == c
      · rw [if_pos hd]
        dsimp only
        rw [show digest = c from by simpa using hd]
      · rw [if_neg hd] at hres
        simp at hres
  have hphase2 : ∀ digest, download = Except.ok digest → digest ≠ c →
      (acquireDownloadPhase download (some c)).result = Except.error AcquireErr.integrity
      ∧ (acquireDownloadPhase download (some c)).fileAfter = none := by
    intro digest hdl hne
    subst hdl
    unfold acquireDownloadPhase
    dsimp only
    rw [validateChecksum_some digest hc]
    rw [if_neg (by simpa using hne)]
    exact ⟨rfl, rfl⟩
  unfold acquireGameArchive
  rw [if_neg hplat]
  constructor
  · cases cached with
    | none => exact hphase
    | some p =>
      obtain ⟨size, digest0⟩ := p
      dsimp only
      by_cases hsz : size > 1024 * 1024
      · rw [if_pos hsz]
        by_cases hv : validateChecksum digest0 (some c) = true
        · rw [if_pos hv]
          intro _
          rw [validateChecksum_some digest0 hc] at hv
          dsimp only
          rw [show digest0 = c from by simpa using hv]
        · rw [if_neg hv]
          exact hphase
      · rw [if_neg hsz]
        exact hphase
  · intro digest hdl hne hcache
    cases cached with
    | none => exact hphase2 digest hdl hne
    | some p =>
      obtain ⟨size, digest0⟩ := p
      unfold usesCache at hcache
      dsimp only at hcache ⊢
      by_cases hsz : size > 1024 * 1024
      · rw [if_pos hsz]
        have hv : ¬validateChecksum digest0 (some c) = true := by
          intro hv
          rw [hv] at hcache
          simp [hsz] at hcache
        rw [if_neg hv]
        exact hphase2 digest hdl hne
      · rw [if_neg hsz]
        exact hphase2 digest hdl hne

/-- Witness for C6: a fresh download whose digest mismatches the supplied
checksum is deleted and reported as an integrity error. -/
theorem c6_checksum_integrity_witness :
    (acquireGameArchive "linux" "amd64" none (Except.ok "bad") (some "good")).result
        = Except.error AcquireErr.integrity
    ∧ (acquireGameArchive "linux" "amd64" none (Except.ok "bad") (some "good")).fileAfter
        = none :=
  (c6_checksum_integrity "linux" "amd64" none (Except.ok "bad") "good"
      (by simp) (by decide)).2 "bad" rfl (by decide) rfl

/-! ## Claim C3 -/

/-- A write phase that wrote set the flag record to the target domain
(`markAsPatched` runs right after every `fs.writeFileSync`). -/
theorem patchWrite_wrote_flag (st2 : PatcherState) (newDomain : String)
    (hw : (patchWrite st2 newDomain).2.wrote = true) :
    (patchWrite st2 newDomain).1.flag = some newDomain := by
  unfold patchWrite at hw ⊢
  dsimp only at hw ⊢
  by_cases h1 : (applyDomainPatches st2.binary newDomain "https://").2 = 0
      ∧ (patchDiscordUrl (applyDomainPatches st2.binary newDomain "https://").1).2 = 0
  · rw [if_pos h1] at hw ⊢
    by_cases h2 : (findAndReplaceDomainSmart st2.binary ORIGINAL_DOMAIN
        (getDomainStrategy newDomain).mainDomain).2 > 0
    · rw [if_pos h2]
    · rw [if_neg h2] at hw
      simp at hw
  · rw [if_neg h1]

/-- A `patchClient` call that wrote left the flag record naming the
configured (validated) target domain. -/
theorem patchClient_wrote_flag (st : PatcherState) (cfgDomain : String)
    (hw : (patchClient st cfgDomain).2.wrote = true) :
    (patchClient st cfgDomain).1.flag = some (getNewDomain cfgDomain) := by
  unfold patchClient at hw ⊢
  dsimp only at hw ⊢
  by_cases hp : (getPatchStatus st cfgDomain).patched = true
  · rw [if_pos hp] at hw
    simp at hw
  · rw [if_neg hp] at hw ⊢
    exact patchWrite_wrote_flag _ _ hw

/-- C3 (amended: restricted to first calls that actually wrote a patched
binary and whose output still contains the length-prefixed main domain —
the two hypotheses the counterexample shows are needed): the second
`patchClient` call with the same configured domain detects the
already-patched state from the flag record and the binary contents,
reports success as already patched without rewriting, and returns the
state byte-identical to the state after one call. -/
theorem c3_patch_idempotent (st : PatcherState) (cfgDomain : String)
    (hw : (patchClient st cfgDomain).2.wrote = true)
    (hc : bufIncludes (patchClient st cfgDomain).1.binary
        (stringToLengthPrefixed
          (getDomainStrategy (getNewDomain cfgDomain)).mainDomain) = true) :
    patchClient (patchClient st cfgDomain).1 cfgDomain
      = ((patchClient st cfgDomain).1,
         { success := true, alreadyPatched := true, patchCount := 0, wrote := false,
           warning := false, legacyFormat := false }) := by
  have hflag := patchClient_wrote_flag st cfgDomain hw
  have hstatus : getPatchStatus (patchClient st cfgDomain).1 cfgDomain
      = { patched := true, currentDomain := some (getNewDomain cfgDomain),
          needsRestore := false } := by
    unfold getPatchStatus
    rw [hflag]
    dsimp only
    rw [if_pos rfl, if_pos hc]
  conv_lhs => rw [patchClient]
  rw [hstatus]
  simp

/-- A client binary consisting of exactly one length-prefixed occurrence of
the original domain (used by the C3 witness). -/
def c3BinaryDomainOnly : PatcherState :=
  ⟨stringToLengthPrefixed "hytale.com", none, none⟩

/-- A client binary consisting of exactly one length-prefixed Discord
invite URL and no domain occurrence. -/
def c3BinaryDiscordOnly : PatcherState :=
  ⟨stringToLengthPrefixed ".gg/hytale", none, none⟩

/-- A client binary that already contains the length-prefixed target main
domain but nothing the patcher rewrites. -/
def c3BinaryInert : PatcherState :=
  ⟨stringToLengthPrefixed "abcd", none, none⟩

set_option maxRecDepth 20000 in
/-- C3 counterexample: two binaries on which the second of two consecutive
`patchClient` calls for the same target domain does not report "already
patched".  On `c3BinaryDiscordOnly` the first call writes (it patches the
Discord URL) yet the patched binary lacks the length-prefixed main domain,
so the second call distrusts the flag record and ends in the
no-occurrences warning path; on `c3BinaryInert` the first call never
writes or sets the flag at all, even though the binary contains the
encoded main domain.  In both runs the second call returns
`alreadyPatched = false`, refuting the claim as stated. -/
theorem c3_counterexample :
    ((patchClient c3BinaryDiscordOnly "abcd").2.wrote = true
      ∧ (patchClient (patchClient c3BinaryDiscordOnly "abcd").1 "abcd").2.alreadyPatched
          = false)
    ∧ (bufIncludes c3BinaryInert.binary
          (stringToLengthPrefixed (getDomainStrategy (getNewDomain "abcd")).mainDomain) = true
      ∧ (patchClient (patchClient c3BinaryInert "abcd").1 "abcd").2.alreadyPatched
          = false) := by
  exact ⟨⟨by decide, by decide⟩, ⟨by decide, by decide⟩⟩

set_option maxRecDepth 20000 in
/-- Witness for C3: on `c3BinaryDomainOnly` the first call writes and its
output contains the length-prefixed main domain, so the second call is the
already-patched no-op. -/
theorem c3_patch_idempotent_witness :
    (patchClient c3BinaryDomainOnly "abcd").2.wrote = true
    ∧ bufIncludes (patchClient c3BinaryDomainOnly "abcd").1.binary
        (stringToLengthPrefixed (getDomainStrategy (getNewDomain "abcd")).mainDomain) = true
    ∧ patchClient (patchClient c3BinaryDomainOnly "abcd").1 "abcd"
      = ((patchClient c3BinaryDomainOnly "abcd").1,
         { success := true, alreadyPatched := true, patchCount := 0, wrote := false,
           warning := false, legacyFormat := false }) :=
  ⟨by decide, by decide, c3_patch_idempotent c3BinaryDomainOnly "abcd" (by decide) (by decide)⟩
